import Mathlib

/-!
# repochat.ai: similarity ranking, prompt excerpts and file collection

A shallow embedding of `src/index.js` (`readCodeFiles`, `generateEmbedding`,
`generateEmbeddingsForCodeFiles`, `cosineSimilarity` and the ranking, selection and prompt steps
of `main`), with the properties the specification states about them.

Numbers are JavaScript numbers taken over exact real arithmetic: a real value, an infinity or
NaN.  Strings are JavaScript strings: sequences of UTF-16 code units, so that `length` and
`substring` count what the source counts.
-/

namespace RepoChat

open scoped List

/-! ## JavaScript numbers over exact reals -/

/-- A JavaScript number over exact real arithmetic: a real, `Infinity`, `-Infinity` or `NaN`.
There is one zero: the sign of a zero is never observed by the code below, whose only divisor
is a product of two square roots.  The rounding and the overflow of IEEE doubles are not
modelled: the operations below give the exact sum, product, quotient and square root.  A
property that depends on the exact value of such a result is stated as one over exact real
arithmetic; comparisons and the sign of a difference of two numbers are the same in doubles. -/
inductive JSNumber where
  | num (x : ℝ)
  | posInf
  | negInf
  | nan

namespace JSNumber

/-- Unary minus. -/
noncomputable def neg : JSNumber → JSNumber
  | num x => num (-x)
  | posInf => negInf
  | negInf => posInf
  | nan => nan

/-- The `+` of two numbers. -/
noncomputable def add : JSNumber → JSNumber → JSNumber
  | num x, num y => num (x + y)
  | num _, posInf => posInf
  | num _, negInf => negInf
  | posInf, num _ => posInf
  | posInf, posInf => posInf
  | posInf, negInf => nan
  | negInf, num _ => negInf
  | negInf, negInf => negInf
  | negInf, posInf => nan
  | nan, _ => nan
  | _, nan => nan

/-- The `-` of two numbers. -/
noncomputable def sub (a b : JSNumber) : JSNumber := add a (neg b)

/-- An infinity times a real: NaN for zero, otherwise the infinity with the product's sign. -/
noncomputable def infTimes (positive : Bool) (y : ℝ) : JSNumber :=
  if y = 0 then nan else if (0 < y) = (positive = true) then posInf else negInf

/-- The `*` of two numbers. -/
noncomputable def mul : JSNumber → JSNumber → JSNumber
  | num x, num y => num (x * y)
  | num x, posInf => infTimes true x
  | num x, negInf => infTimes false x
  | posInf, num y => infTimes true y
  | negInf, num y => infTimes false y
  | posInf, posInf => posInf
  | posInf, negInf => negInf
  | negInf, posInf => negInf
  | negInf, negInf => posInf
  | nan, _ => nan
  | _, nan => nan

/-- The `/` of two numbers; `0 / 0` is NaN and a non-zero real over zero is an infinity. -/
noncomputable def div : JSNumber → JSNumber → JSNumber
  | num x, num y =>
      if y = 0 then (if x = 0 then nan else if 0 < x then posInf else negInf) else num (x / y)
  | num _, posInf => num 0
  | num _, negInf => num 0
  | posInf, num y => if 0 ≤ y then posInf else negInf
  | negInf, num y => if 0 ≤ y then negInf else posInf
  | posInf, posInf => nan
  | posInf, negInf => nan
  | negInf, posInf => nan
  | negInf, negInf => nan
  | nan, _ => nan
  | _, nan => nan

/-- The function `Math.sqrt`. -/
noncomputable def sqrt : JSNumber → JSNumber
  | num x => if x < 0 then nan else num (Real.sqrt x)
  | posInf => posInf
  | negInf => nan
  | nan => nan

/-- The number is greater than zero (`v > 0`, false for NaN). -/
def IsPositive : JSNumber → Prop
  | num x => 0 < x
  | posInf => True
  | negInf => False
  | nan => False

noncomputable instance : DecidablePred IsPositive := fun v =>
  match v with
  | num x => inferInstanceAs (Decidable (0 < x))
  | posInf => isTrue trivial
  | negInf => isFalse (fun h => h)
  | nan => isFalse (fun h => h)

end JSNumber

open JSNumber

/-! ## cosineSimilarity -/

/-- A runtime error thrown by the JavaScript engine. -/
inductive JSError where
  | typeError
  deriving DecidableEq, Repr

/-- The expression `vec[i]` used as a number: the element, and NaN when `i` is past the end of
the array (the read gives `undefined`, which converts to NaN). -/
def index (vec : List ℝ) (i : ℕ) : JSNumber :=
  match vec.get? i with
  | some x => num x
  | none => nan

/-- The three accumulators of the loop of `cosineSimilarity`. -/
structure Accumulators where
  dotProduct : JSNumber
  normA : JSNumber
  normB : JSNumber

/-- The state before the loop: `dotProduct = 0.0`, `normA = 0.0`, `normB = 0.0`. -/
def initialAccumulators : Accumulators :=
  { dotProduct := num 0, normA := num 0, normB := num 0 }

/-- One iteration of the loop body of `cosineSimilarity`, at index `i`. -/
noncomputable def cosineStep (vecA vecB : List ℝ) (s : Accumulators) (i : ℕ) : Accumulators :=
  { dotProduct := add s.dotProduct (mul (index vecA i) (index vecB i))
    normA := add s.normA (mul (index vecA i) (index vecA i))
    normB := add s.normB (mul (index vecB i) (index vecB i)) }

/-- The loop `for (let i = 0; i < vecA.length; i++)` run for its first `n` iterations. -/
noncomputable def cosineLoop (vecA vecB : List ℝ) (n : ℕ) : Accumulators :=
  (List.range n).foldl (cosineStep vecA vecB) initialAccumulators

/-- The return expression `dotProduct / (Math.sqrt(normA) * Math.sqrt(normB))`. -/
noncomputable def cosineResult (s : Accumulators) : JSNumber :=
  div s.dotProduct (mul (sqrt s.normA) (sqrt s.normB))

/-- The function `cosineSimilarity(vecA, vecB)`.  An argument is an array of numbers or
`undefined` (what `generateEmbedding` returns after a failed request).  Reading `vecA.length`
of `undefined` throws; so does reading `vecB[i]` of `undefined`, which happens when the loop
runs at least once.  There is no other exit than the `return`.  The value returned is the one
of exact real arithmetic, which the engine computes up to the rounding of doubles. -/
noncomputable def cosineSimilarity (vecA vecB : Option (List ℝ)) : Except JSError JSNumber :=
  match vecA with
  | none => Except.error JSError.typeError
  | some a =>
    match vecB with
    | none =>
        if a.length = 0 then Except.ok (cosineResult initialAccumulators)
        else Except.error JSError.typeError
    | some b => Except.ok (cosineResult (cosineLoop a b a.length))

/-! ## Strings, arrays and paths -/

/-- A JavaScript string: its sequence of UTF-16 code units.  `length` is the number of code
units and `substring` cuts between code units. -/
abbrev JSString := List ℕ

/-- The string written by an ASCII literal of the source. -/
def lit (s : String) : JSString := s.toList.map Char.toNat

/-- The method `s.substring(indexStart, indexEnd)` for non-negative integer arguments: both
are clamped to the length of the string and swapped when out of order. -/
def substring (s : JSString) (indexStart indexEnd : ℕ) : JSString :=
  let a := min indexStart s.length
  let b := min indexEnd s.length
  (s.drop (min a b)).take (max a b - min a b)

/-- The method `arr.slice(start, end)` for non-negative integer arguments. -/
def slice {α : Type} (arr : List α) (start stop : ℕ) : List α :=
  (arr.take stop).drop start

/-- The functions of the Node.js `path` module that the source calls.  They belong to the
runtime, not to the repository, and are a parameter of the embedding. -/
structure PathModule where
  resolve : JSString → JSString → JSString
  extname : JSString → JSString
  relative : JSString → JSString → JSString

/-! ## The file records and the directory tree -/

/-- The object `{ path, content }` pushed by `readCodeFiles`, to which
`generateEmbeddingsForCodeFiles` adds `embedding` and `main` adds `similarity`.  A property
that was never set, or was set to `undefined`, is `none`. -/
structure CodeFile where
  path : JSString
  content : JSString
  embedding : Option (List ℝ) := none
  similarity : Option JSNumber := none

mutual
/-- What `fs.statSync` finds at a path: a file with its content as read by
`fs.readFileSync(file, 'utf8')`, or a directory with its entries. -/
inductive FSNode where
  | file (content : JSString)
  | dir (entries : FSEntries)
/-- The entries of a directory, in the order `fs.readdirSync` lists them. -/
inductive FSEntries where
  | nil
  | cons (name : JSString) (node : FSNode) (rest : FSEntries)
end

/-- An error thrown by the `fs` module. -/
inductive FSError where
  | enotdir
  deriving DecidableEq, Repr

/-- The array `codeExtensions` of `readCodeFiles`. -/
def codeExtensions : List JSString :=
  [lit ".js", lit ".ts", lit ".py", lit ".java", lit ".c", lit ".cpp", lit ".go", lit ".rb",
   lit ".php", lit ".md"]

mutual
/-- The function `readCodeFiles(dir)`, given what is on disk at `dir`.  `fs.readdirSync`
throws when `dir` is not a directory; otherwise `results` starts empty and the `forEach`
callback runs over the listing. -/
def readCodeFiles (P : PathModule) (dir : JSString) (node : FSNode) :
    Except FSError (List CodeFile) :=
  match node with
  | FSNode.file _ => Except.error FSError.enotdir
  | FSNode.dir list => forEachEntry P dir list []
/-- The `list.forEach` of `readCodeFiles`, carrying the variable `results`: a directory entry
is recursed into and its records are concatenated, any other entry is pushed with its path and
content when `path.extname` of its resolved path is one of `codeExtensions`. -/
def forEachEntry (P : PathModule) (dir : JSString) (list : FSEntries)
    (results : List CodeFile) : Except FSError (List CodeFile) :=
  match list with
  | FSEntries.nil => Except.ok results
  | FSEntries.cons name (FSNode.dir sub) rest =>
      match readCodeFiles P (P.resolve dir name) (FSNode.dir sub) with
      | Except.ok found => forEachEntry P dir rest (results ++ found)
      | Except.error e => Except.error e
  | FSEntries.cons name (FSNode.file content) rest =>
      if P.extname (P.resolve dir name) ∈ codeExtensions then
        forEachEntry P dir rest (results ++ [{ path := P.resolve dir name, content := content }])
      else
        forEachEntry P dir rest results
end

/-! ## Embedding requests -/

/-- The body of a request to the embedding API. -/
structure EmbeddingRequest where
  model : JSString
  input : JSString
  deriving DecidableEq, Repr

/-- The request `generateEmbedding(text)` sends: the fixed model and `input: text`. -/
def embeddingRequest (text : JSString) : EmbeddingRequest :=
  { model := lit "text-embedding-ada-002", input := text }

/-- The function `generateEmbedding(text)`: the vector of the response, or `undefined` when
the request fails (the error is caught and logged).  The API is a parameter, taken as a
function of the request. -/
def generateEmbedding (api : EmbeddingRequest → Option (List ℝ)) (text : JSString) :
    Option (List ℝ) :=
  api (embeddingRequest text)

/-- The constant `maxLength` of `generateEmbeddingsForCodeFiles`. -/
def maxLength : ℕ := 8000

/-- The variable `content` of `generateEmbeddingsForCodeFiles` when `generateEmbedding` is
called: the content of the file, cut by `substring(0, maxLength)` when it is longer. -/
def embeddingContent (file : CodeFile) : JSString :=
  if file.content.length > maxLength then substring file.content 0 maxLength
  else file.content

/-- The request `generateEmbeddingsForCodeFiles` sends for one file. -/
def fileEmbeddingRequest (file : CodeFile) : EmbeddingRequest :=
  embeddingRequest (embeddingContent file)

/-- The function `generateEmbeddingsForCodeFiles(codeFiles)`: every file gets the outcome of its
request as `embedding`. -/
def generateEmbeddingsForCodeFiles (api : EmbeddingRequest → Option (List ℝ))
    (codeFiles : List CodeFile) : List CodeFile :=
  codeFiles.map fun file => { file with embedding := generateEmbedding api (embeddingContent file) }

/-- The request `main` sends for the question:
`const questionEmbedding = await generateEmbedding(question)`. -/
def questionEmbeddingRequest (question : JSString) : EmbeddingRequest :=
  embeddingRequest question

/-! ## Scoring, ranking and selection in `main` -/

/-- The callback of the first `codeFiles.forEach` of `main`: a file with an embedding gets
`cosineSimilarity(questionEmbedding, file.embedding)`, any other file gets `-1`. -/
noncomputable def assignSimilarity (questionEmbedding : Option (List ℝ)) (file : CodeFile) :
    Except JSError CodeFile :=
  match file.embedding with
  | some embedding =>
      match cosineSimilarity questionEmbedding (some embedding) with
      | Except.ok s => Except.ok { file with similarity := some s }
      | Except.error e => Except.error e
  | none => Except.ok { file with similarity := some (num (-1)) }

/-- The first `codeFiles.forEach` of `main`, which stops at the first exception. -/
noncomputable def scoreFiles (questionEmbedding : Option (List ℝ)) :
    List CodeFile → Except JSError (List CodeFile)
  | [] => Except.ok []
  | file :: rest =>
      match assignSimilarity questionEmbedding file with
      | Except.error e => Except.error e
      | Except.ok scored =>
          match scoreFiles questionEmbedding rest with
          | Except.error e => Except.error e
          | Except.ok others => Except.ok (scored :: others)

/-- A property read as a number: `undefined` converts to NaN. -/
def toNumber : Option JSNumber → JSNumber
  | some v => v
  | none => nan

/-- The comparator `(a, b) => b.similarity - a.similarity`. -/
noncomputable def compareSimilarity (a b : CodeFile) : JSNumber :=
  sub (toNumber b.similarity) (toNumber a.similarity)

/-- The operation SortCompare of ECMAScript for a comparator: a NaN result counts as `+0`. -/
def sortCompare {α : Type} (comparefn : α → α → JSNumber) (x y : α) : JSNumber :=
  match comparefn x y with
  | nan => num 0
  | v => v

/-- Insertion of `x` in front of a sorted array: `x` moves past every leading `y` with
`SortCompare(x, y) > 0` and stops at the first other element. -/
noncomputable def sortInsert {α : Type} (comparefn : α → α → JSNumber) (x : α) :
    List α → List α
  | [] => [x]
  | y :: rest =>
      if IsPositive (sortCompare comparefn x y) then y :: sortInsert comparefn x rest
      else x :: y :: rest

/-- The method `Array.prototype.sort(comparefn)`.  ECMAScript requires the sort to be stable
and leaves the algorithm to the engine; for a consistent comparator every stable algorithm gives
the same array.  The model is the stable insertion sort, elements entering from the last to the
first. -/
noncomputable def arraySort {α : Type} (comparefn : α → α → JSNumber) : List α → List α
  | [] => []
  | x :: rest => sortInsert comparefn x (arraySort comparefn rest)

/-- The statement `codeFiles.sort((a, b) => b.similarity - a.similarity)`. -/
noncomputable def rankFiles (codeFiles : List CodeFile) : List CodeFile :=
  arraySort compareSimilarity codeFiles

/-- The scoring `forEach` followed by the sort. -/
noncomputable def scoreAndRank (questionEmbedding : Option (List ℝ))
    (codeFiles : List CodeFile) : Except JSError (List CodeFile) :=
  match scoreFiles questionEmbedding codeFiles with
  | Except.ok scored => Except.ok (rankFiles scored)
  | Except.error e => Except.error e

/-- The constant `topN` of `main`. -/
def topN : ℕ := 100

/-- The array `relevantFiles = codeFiles.slice(0, topN)`, taken after the sort. -/
noncomputable def relevantFiles (codeFiles : List CodeFile) : List CodeFile :=
  slice (rankFiles codeFiles) 0 topN

/-- The files of the sorted array that the slice leaves out. -/
noncomputable def unselectedFiles (codeFiles : List CodeFile) : List CodeFile :=
  (rankFiles codeFiles).drop topN

/-! ## The prompt -/

/-- The constant `maxFileContentLength` of `main`. -/
def maxFileContentLength : ℕ := 5000

/-- The callback of `relevantFiles.forEach`: the two `userMessage +=` statements for a file. -/
def appendFile (P : PathModule) (localPath : JSString) (userMessage : JSString)
    (file : CodeFile) : JSString :=
  let content :=
    if file.content.length > maxFileContentLength then
      substring file.content 0 maxFileContentLength
    else file.content
  let userMessage := userMessage ++ (lit "File: " ++ P.relative localPath file.path ++ lit "\n")
  userMessage ++ (lit "```\n" ++ content ++ lit "\n```\n\n")

/-- The variable `userMessage` of `main` when the request is sent. -/
def userMessage (P : PathModule) (localPath : JSString) (relevant : List CodeFile)
    (question : JSString) : JSString :=
  relevant.foldl (appendFile P localPath) [] ++
    (lit "Respond to the follow about the code above:\n\n" ++ question)

/-- The constant `systemMessage` of `main`. -/
def systemMessage : JSString :=
  lit "You are an expert programmer. Here are some code files:"

/-- The content of the one message sent to the chat API. -/
def promptContent (P : PathModule) (localPath : JSString) (relevant : List CodeFile)
    (question : JSString) : JSString :=
  systemMessage ++ lit " " ++ userMessage P localPath relevant question

/-! ## A path module for the worked examples -/

/-- The function `path.resolve(dir, name)` for an absolute directory and the name of one of its
entries, on a POSIX system. -/
def posixResolve (dir name : JSString) : JSString :=
  dir ++ lit "/" ++ name

/-- The last segment of a path: what follows the last `/` (code unit 47). -/
def posixBasename (p : JSString) : JSString :=
  (p.reverse.takeWhile (fun c => c != 47)).reverse

/-- The function `path.extname(p)` on a POSIX system, for a path without a trailing `/`: from
the last `.` (code unit 46) of the last segment to the end; empty when there is no `.`, when
the last `.` starts the segment, and for the segment `..`. -/
def posixExtname (p : JSString) : JSString :=
  let base := posixBasename p
  let afterDot := (base.reverse.takeWhile (fun c => c != 46)).reverse
  if base.all (fun c => c != 46) then []
  else if base.length - afterDot.length - 1 = 0 then []
  else if base = lit ".." then []
  else base.drop (base.length - afterDot.length - 1)

/-- The function `path.relative(base, target)` for absolute paths with `target` below `base`. -/
def posixRelative (base target : JSString) : JSString :=
  if (base ++ lit "/").isPrefixOf target then target.drop (base.length + 1) else target

/-- The POSIX behaviour of the `path` module on absolute paths without `.` and `..` segments. -/
def posixPath : PathModule :=
  { resolve := posixResolve, extname := posixExtname, relative := posixRelative }

/-! ## Notions of the specification -/

/-- The dot product `sum vecA[i] * vecB[i]` over the indices of `vecA`. -/
noncomputable def dot (vecA vecB : List ℝ) : ℝ :=
  ∑ i in Finset.range vecA.length, vecA.getD i 0 * vecB.getD i 0

/-- The sum of squares `sum vec[i]^2`. -/
noncomputable def sumSquares (vec : List ℝ) : ℝ :=
  ∑ i in Finset.range vec.length, vec.getD i 0 ^ 2

/-- The Euclidean norm `sqrt(sum vec[i]^2)`. -/
noncomputable def euclideanNorm (vec : List ℝ) : ℝ :=
  Real.sqrt (sumSquares vec)

/-- Truncation of a text to a maximum length: its first `n` code units when it is longer than
`n`, the text itself otherwise. -/
def truncated (n : ℕ) (text : JSString) : JSString :=
  if text.length > n then text.take n else text

mutual
/-- Every regular file at or below a node, at any depth, with its path and its content. -/
def filesAt (P : PathModule) (path : JSString) : FSNode → List (JSString × JSString)
  | FSNode.file content => [(path, content)]
  | FSNode.dir list => filesIn P path list
/-- Every regular file below a directory, at any depth, with its path and its content. -/
def filesIn (P : PathModule) (dir : JSString) : FSEntries → List (JSString × JSString)
  | FSEntries.nil => []
  | FSEntries.cons name node rest => filesAt P (P.resolve dir name) node ++ filesIn P dir rest
end

/-- The similarity of a file is the real number `x`. -/
def HasSimilarity (file : CodeFile) (x : ℝ) : Prop :=
  file.similarity = some (num x)

/-- Every file of the list has a real number as similarity (none is NaN, infinite or unset). -/
def AllScored (files : List CodeFile) : Prop :=
  ∀ f ∈ files, ∃ x : ℝ, HasSimilarity f x

/-- The similarity of `a` is at least the similarity of `b`, both real numbers. -/
def SimilarityGE (a b : CodeFile) : Prop :=
  ∃ x y : ℝ, HasSimilarity a x ∧ HasSimilarity b y ∧ y ≤ x

/-- A class of files of one similarity: any two files that satisfy `p` have the same
`similarity`. -/
def TieClass (p : CodeFile → Bool) : Prop :=
  ∀ a b : CodeFile, p a = true → p b = true → a.similarity = b.similarity

/-- The record `{ path, content }` of a file on disk. -/
def recordOf (f : JSString × JSString) : CodeFile :=
  { path := f.1, content := f.2 }

/-- The extension of a path, as `path.extname` gives it, is one of the ten allowed. -/
def hasCodeExtension (P : PathModule) (path : JSString) : Bool :=
  decide (P.extname path ∈ codeExtensions)

/-- The records of those files of a listing whose extension is allowed. -/
def codeRecords (P : PathModule) (files : List (JSString × JSString)) : List CodeFile :=
  (files.filter fun f => hasCodeExtension P f.1).map recordOf

/-- The block of one file in the prompt, around a given excerpt: the label line with the
relative path, then the excerpt between two code fences. -/
def fencedBlock (P : PathModule) (localPath : JSString) (file : CodeFile)
    (excerpt : JSString) : JSString :=
  lit "File: " ++ P.relative localPath file.path ++ lit "\n" ++
    (lit "```\n" ++ excerpt ++ lit "\n```\n\n")

/-- The record `scored` is the record `file` after the scoring step: a file without an
embedding has got the similarity -1, and a file with an embedding has got a real number, the
value `cosineSimilarity` returned for it, whatever the arithmetic made of it. -/
def ScoredAs (file scored : CodeFile) : Prop :=
  (file.embedding = none ∧ scored = { file with similarity := some (num (-1)) }) ∨
  (file.embedding ≠ none ∧ ∃ x : ℝ, scored = { file with similarity := some (num x) })

/-- The question embedding has a non-zero norm, and every file embedding has the length of the
question embedding and a non-zero norm. -/
def ValidEmbeddings (q : List ℝ) (files : List CodeFile) : Prop :=
  euclideanNorm q ≠ 0 ∧
  ∀ f ∈ files, ∀ e : List ℝ, f.embedding = some e → e.length = q.length ∧ euclideanNorm e ≠ 0

/-! ## Worked examples -/

/-- A file record with a given path and similarity. -/
def scoredFile (path : JSString) (x : ℝ) : CodeFile :=
  { path := path, content := [], similarity := some (num x) }

/-- Three files with the similarities 0.9, -1 and 0.5, in this order. -/
noncomputable def threeFiles : List CodeFile :=
  [scoredFile (lit "a.js") 0.9, scoredFile (lit "b.js") (-1), scoredFile (lit "c.js") 0.5]

/-- 150 files, the file number `i` with similarity `i / 150`. -/
noncomputable def manyFiles : List CodeFile :=
  (List.range 150).map fun i => scoredFile [i] ((i : ℝ) / 150)

/-- A file without an embedding, followed by a file whose embedding is `[-1]`. -/
def tiedFiles : List CodeFile :=
  [{ path := lit "x.js", content := [] },
   { path := lit "y.js", content := [], embedding := some [-1] }]

/-- A file without an embedding, followed by a file whose embedding is `[1, 0]`. -/
def mixedFiles : List CodeFile :=
  [{ path := lit "x.js", content := [] },
   { path := lit "main.go", content := [], embedding := some [1, 0] }]

/-- The files of `mixedFiles` after the scoring step with the question embedding `[1, 0]`. -/
def mixedScored : List CodeFile :=
  [{ path := lit "x.js", content := [], similarity := some (num (-1)) },
   { path := lit "main.go", content := [], embedding := some [1, 0],
     similarity := some (num 1) }]

/-- The tree with the files `a.py`, `b.txt` and `sub/c.js`. -/
def exampleTree : FSNode :=
  FSNode.dir
    (FSEntries.cons (lit "a.py") (FSNode.file (lit "print(1)"))
      (FSEntries.cons (lit "b.txt") (FSNode.file (lit "notes"))
        (FSEntries.cons (lit "sub")
          (FSNode.dir (FSEntries.cons (lit "c.js") (FSNode.file (lit "let c = 1;")) FSEntries.nil))
          FSEntries.nil)))

/-- A question of 8001 code units: the letter `a` 8001 times. -/
def longQuestion : JSString :=
  List.replicate 8001 97

/-! ## Lemmas on the loop of `cosineSimilarity` -/

theorem index_of_lt {vec : List ℝ} {i : ℕ} (h : i < vec.length) :
    index vec i = num (vec.getD i 0) := by
  simp [index, List.getD, List.getElem?_eq_getElem h]

theorem index_of_le {vec : List ℝ} {i : ℕ} (h : vec.length ≤ i) : index vec i = nan := by
  simp [index, List.getElem?_eq_none h]

theorem mul_nan_right (v : JSNumber) : mul v nan = nan := by
  cases v <;> rfl

theorem add_nan_right (v : JSNumber) : add v nan = nan := by
  cases v <;> rfl

theorem div_nan_left (v : JSNumber) : div nan v = nan := by
  cases v <;> rfl

theorem cosineLoop_succ (vecA vecB : List ℝ) (n : ℕ) :
    cosineLoop vecA vecB (n + 1) = cosineStep vecA vecB (cosineLoop vecA vecB n) n := by
  simp [cosineLoop, List.range_succ, List.foldl_append]

/-- While both arrays have an element at every index visited, the accumulators are the three
partial sums. -/
theorem cosineLoop_sums (vecA vecB : List ℝ) :
    ∀ n : ℕ, n ≤ vecA.length → n ≤ vecB.length →
      cosineLoop vecA vecB n =
        { dotProduct := num (∑ i in Finset.range n, vecA.getD i 0 * vecB.getD i 0)
          normA := num (∑ i in Finset.range n, vecA.getD i 0 ^ 2)
          normB := num (∑ i in Finset.range n, vecB.getD i 0 ^ 2) } := by
  intro n
  induction n with
  | zero => intro _ _; simp [cosineLoop, initialAccumulators]
  | succ n ih =>
    intro hA hB
    rw [cosineLoop_succ, ih (Nat.le_of_succ_le hA) (Nat.le_of_succ_le hB)]
    simp only [cosineStep, index_of_lt (Nat.lt_of_succ_le hA), index_of_lt (Nat.lt_of_succ_le hB),
      mul, add, Finset.sum_range_succ, pow_two]

/-- Once the loop has read past the end of `vecB`, `dotProduct` is NaN. -/
theorem cosineLoop_nan (vecA vecB : List ℝ) (n : ℕ) (h : vecB.length < n) :
    (cosineLoop vecA vecB n).dotProduct = nan := by
  cases n with
  | zero => exact absurd h (Nat.not_lt_zero _)
  | succ n =>
    rw [cosineLoop_succ]
    simp only [cosineStep, index_of_le (Nat.le_of_lt_succ h), mul_nan_right, add_nan_right]

theorem sumSquares_nonneg (vec : List ℝ) : 0 ≤ sumSquares vec :=
  Finset.sum_nonneg fun _ _ => sq_nonneg _

theorem cosineResult_num (d x y : ℝ) (hx : 0 ≤ x) (hy : 0 ≤ y)
    (hxy : Real.sqrt x * Real.sqrt y ≠ 0) :
    cosineResult { dotProduct := num d, normA := num x, normB := num y } =
      num (d / (Real.sqrt x * Real.sqrt y)) := by
  simp [cosineResult, sqrt, mul, div, not_lt.mpr hx, not_lt.mpr hy, hxy]

/-- On arrays of equal length the function returns the return expression at the three sums. -/
theorem cosineSimilarity_eq (vecA vecB : List ℝ) (h : vecA.length = vecB.length) :
    cosineSimilarity (some vecA) (some vecB) =
      Except.ok (cosineResult
        { dotProduct := num (dot vecA vecB)
          normA := num (sumSquares vecA)
          normB := num (sumSquares vecB) }) := by
  simp only [cosineSimilarity]
  rw [cosineLoop_sums vecA vecB vecA.length (le_refl _) (le_of_eq h)]
  simp only [dot, sumSquares, h]

/-- The Cauchy-Schwarz bound on the dot product of two arrays of equal length. -/
theorem abs_dot_le (vecA vecB : List ℝ) (h : vecA.length = vecB.length) :
    |dot vecA vecB| ≤ euclideanNorm vecA * euclideanNorm vecB := by
  unfold euclideanNorm
  rw [← Real.sqrt_mul (sumSquares_nonneg vecA)]
  apply Real.abs_le_sqrt
  have := Finset.sum_mul_sq_le_sq_mul_sq (Finset.range vecA.length)
    (fun i => vecA.getD i 0) (fun i => vecB.getD i 0)
  simpa [dot, sumSquares, h] using this

theorem dot_self (vec : List ℝ) : dot vec vec = sumSquares vec := by
  simp [dot, sumSquares, pow_two]

theorem dot_comm (vecA vecB : List ℝ) (h : vecA.length = vecB.length) :
    dot vecA vecB = dot vecB vecA := by
  simp only [dot, h]
  exact Finset.sum_congr rfl fun i _ => mul_comm _ _

theorem sumSquares_pos {vec : List ℝ} (h : ∃ x ∈ vec, x ≠ 0) : 0 < sumSquares vec := by
  obtain ⟨x, hx, hx0⟩ := h
  obtain ⟨i, hi, rfl⟩ := List.getElem_of_mem hx
  have hterm : 0 < vec.getD i 0 ^ 2 := by
    have : vec.getD i 0 = vec[i] := by simp [List.getD, List.getElem?_eq_getElem hi]
    rw [this]
    positivity
  exact Finset.sum_pos' (fun _ _ => sq_nonneg _) ⟨i, Finset.mem_range.mpr hi, hterm⟩

theorem mul_num_comm (x y : ℝ) : mul (num x) (num y) = mul (num y) (num x) := by
  simp [mul, mul_comm]

theorem sqrt_num_of_nonneg {x : ℝ} (h : 0 ≤ x) : sqrt (num x) = num (Real.sqrt x) := by
  simp [sqrt, not_lt.mpr h]

theorem getD_take_of_lt (vec : List ℝ) {i n : ℕ} (h : i < n) :
    (vec.take n).getD i 0 = vec.getD i 0 := by
  simp [List.getD, List.getElem?_take, h]

/-- The loop reads `vecB` only below the length of `vecA`. -/
theorem cosineLoop_take (vecA vecB : List ℝ) (h : vecA.length < vecB.length) :
    cosineLoop vecA (vecB.take vecA.length) vecA.length =
      cosineLoop vecA vecB vecA.length := by
  rw [cosineLoop_sums vecA vecB vecA.length (le_refl _) (le_of_lt h),
    cosineLoop_sums vecA (vecB.take vecA.length) vecA.length (le_refl _)
      (by simp [List.length_take, le_of_lt h])]
  have e1 : ∑ i in Finset.range vecA.length, vecA.getD i 0 * (vecB.take vecA.length).getD i 0 =
      ∑ i in Finset.range vecA.length, vecA.getD i 0 * vecB.getD i 0 :=
    Finset.sum_congr rfl fun i hi => by rw [getD_take_of_lt vecB (Finset.mem_range.mp hi)]
  have e2 : ∑ i in Finset.range vecA.length, (vecB.take vecA.length).getD i 0 ^ 2 =
      ∑ i in Finset.range vecA.length, vecB.getD i 0 ^ 2 :=
    Finset.sum_congr rfl fun i hi => by rw [getD_take_of_lt vecB (Finset.mem_range.mp hi)]
  rw [e1, e2]

/-! ## Lemmas on the sort -/

theorem sortInsert_perm {α : Type} (comparefn : α → α → JSNumber) (x : α) :
    ∀ l : List α, (sortInsert comparefn x l).Perm (x :: l)
  | [] => List.Perm.refl _
  | y :: rest => by
    unfold sortInsert
    split
    · exact ((sortInsert_perm comparefn x rest).cons y).trans (List.Perm.swap x y rest)
    · exact List.Perm.refl _

theorem arraySort_perm {α : Type} (comparefn : α → α → JSNumber) :
    ∀ l : List α, (arraySort comparefn l).Perm l
  | [] => List.Perm.refl _
  | x :: rest => by
    unfold arraySort
    exact (sortInsert_perm comparefn x _).trans ((arraySort_perm comparefn rest).cons x)

theorem rankFiles_perm (files : List CodeFile) : (rankFiles files).Perm files :=
  arraySort_perm compareSimilarity files

theorem rankFiles_cons (x : CodeFile) (files : List CodeFile) :
    rankFiles (x :: files) = sortInsert compareSimilarity x (rankFiles files) := rfl

theorem allScored_of_perm {l₁ l₂ : List CodeFile} (h : l₁.Perm l₂) (hs : AllScored l₂) :
    AllScored l₁ :=
  fun f hf => hs f (h.mem_iff.mp hf)

/-- On two files with real similarities `x` and `y`, `SortCompare` is positive exactly when
the second file has the greater similarity. -/
theorem isPositive_sortCompare {a b : CodeFile} {x y : ℝ} (ha : HasSimilarity a x)
    (hb : HasSimilarity b y) : IsPositive (sortCompare compareSimilarity a b) ↔ x < y := by
  unfold HasSimilarity at ha hb
  simp [sortCompare, compareSimilarity, ha, hb, toNumber, sub, neg, add, IsPositive]

theorem hasSimilarity_unique {f : CodeFile} {x y : ℝ} (hx : HasSimilarity f x)
    (hy : HasSimilarity f y) : x = y := by
  unfold HasSimilarity at hx hy
  rw [hx] at hy
  injection hy with h
  injection h

theorem SimilarityGE.trans {a b c : CodeFile} (hab : SimilarityGE a b) (hbc : SimilarityGE b c) :
    SimilarityGE a c := by
  obtain ⟨x, y, hx, hy, hyx⟩ := hab
  obtain ⟨y', z, hy', hz, hzy⟩ := hbc
  have := hasSimilarity_unique hy hy'
  exact ⟨x, z, hx, hz, by linarith⟩

theorem sortInsert_sorted (x : CodeFile) :
    ∀ l : List CodeFile, AllScored (x :: l) → l.Pairwise SimilarityGE →
      (sortInsert compareSimilarity x l).Pairwise SimilarityGE
  | [], _, _ => List.pairwise_singleton _ _
  | y :: rest, hs, hl => by
    obtain ⟨vx, hvx⟩ := hs x (List.mem_cons_self _ _)
    obtain ⟨vy, hvy⟩ := hs y (List.mem_cons_of_mem _ (List.mem_cons_self _ _))
    have hrest : AllScored (x :: rest) := fun f hf => by
      rcases List.mem_cons.mp hf with h | h
      · exact hs f (h ▸ List.mem_cons_self _ _)
      · exact hs f (List.mem_cons_of_mem _ (List.mem_cons_of_mem _ h))
    rw [List.pairwise_cons] at hl
    unfold sortInsert
    split
    · rename_i hpos
      have hlt : vx < vy := (isPositive_sortCompare hvx hvy).mp hpos
      rw [List.pairwise_cons]
      refine ⟨fun z hz => ?_, sortInsert_sorted x rest hrest hl.2⟩
      rcases List.mem_cons.mp ((sortInsert_perm compareSimilarity x rest).mem_iff.mp hz) with h | h
      · exact h ▸ ⟨vy, vx, hvy, hvx, le_of_lt hlt⟩
      · exact hl.1 z h
    · rename_i hpos
      have hle : vy ≤ vx := not_lt.mp fun h => hpos ((isPositive_sortCompare hvx hvy).mpr h)
      have hxy : SimilarityGE x y := ⟨vx, vy, hvx, hvy, hle⟩
      rw [List.pairwise_cons, List.pairwise_cons]
      refine ⟨fun z hz => ?_, hl⟩
      rcases List.mem_cons.mp hz with h | h
      · exact h ▸ hxy
      · exact hxy.trans (hl.1 z h)

theorem rankFiles_sorted :
    ∀ files : List CodeFile, AllScored files → (rankFiles files).Pairwise SimilarityGE
  | [], _ => List.Pairwise.nil
  | x :: rest, hs => by
    rw [rankFiles_cons]
    have hrest : AllScored rest := fun f hf => hs f (List.mem_cons_of_mem _ hf)
    refine sortInsert_sorted x _ ?_ (rankFiles_sorted rest hrest)
    exact allScored_of_perm ((rankFiles_perm rest).cons x) hs

theorem sortInsert_filter (p : CodeFile → Bool) (hp : TieClass p) (x : CodeFile) :
    ∀ l : List CodeFile, AllScored (x :: l) →
      (sortInsert compareSimilarity x l).filter p = (x :: l).filter p
  | [], _ => rfl
  | y :: rest, hs => by
    obtain ⟨vx, hvx⟩ := hs x (List.mem_cons_self _ _)
    obtain ⟨vy, hvy⟩ := hs y (List.mem_cons_of_mem _ (List.mem_cons_self _ _))
    have hrest : AllScored (x :: rest) := fun f hf => by
      rcases List.mem_cons.mp hf with h | h
      · exact hs f (h ▸ List.mem_cons_self _ _)
      · exact hs f (List.mem_cons_of_mem _ (List.mem_cons_of_mem _ h))
    unfold sortInsert
    split
    · rename_i hpos
      have hlt : vx < vy := (isPositive_sortCompare hvx hvy).mp hpos
      have hnot : ¬ (p x = true ∧ p y = true) := fun h => by
        have heq := hp x y h.1 h.2
        unfold HasSimilarity at hvx hvy
        rw [hvx, hvy] at heq
        injection heq with h1
        injection h1 with h2
        exact absurd h2 (ne_of_lt hlt)
      have ih := sortInsert_filter p hp x rest hrest
      rw [List.filter_cons, ih]
      by_cases hx : p x = true
      · have hy : p y = false := by
          cases h : p y
          · rfl
          · exact absurd ⟨hx, h⟩ hnot
        simp [List.filter_cons, hx, hy]
      · have hx' : p x = false := by simpa using hx
        simp [List.filter_cons, hx']
    · rfl

theorem rankFiles_filter (p : CodeFile → Bool) (hp : TieClass p) :
    ∀ files : List CodeFile, AllScored files → (rankFiles files).filter p = files.filter p
  | [], _ => rfl
  | x :: rest, hs => by
    have hrest : AllScored rest := fun f hf => hs f (List.mem_cons_of_mem _ hf)
    rw [rankFiles_cons, sortInsert_filter p hp x _
      (allScored_of_perm ((rankFiles_perm rest).cons x) hs)]
    simp only [List.filter_cons, rankFiles_filter p hp rest hrest]

/-! ## Lemmas on file collection -/

theorem codeRecords_append (P : PathModule) (l₁ l₂ : List (JSString × JSString)) :
    codeRecords P (l₁ ++ l₂) = codeRecords P l₁ ++ codeRecords P l₂ := by
  simp [codeRecords]

/-- The loop over a listing appends to `results` the records of the files below it. -/
theorem forEachEntry_eq (P : PathModule) :
    ∀ (list : FSEntries) (dir : JSString) (results : List CodeFile),
      forEachEntry P dir list results = Except.ok (results ++ codeRecords P (filesIn P dir list))
  | FSEntries.nil, dir, results => by
    simp [forEachEntry, filesIn, codeRecords]
  | FSEntries.cons name (FSNode.dir sub) rest, dir, results => by
    rw [forEachEntry, readCodeFiles, forEachEntry_eq P sub (P.resolve dir name) []]
    simp only [forEachEntry_eq P rest dir, filesIn, filesAt, codeRecords_append, List.nil_append,
      List.append_assoc]
  | FSEntries.cons name (FSNode.file content) rest, dir, results => by
    rw [forEachEntry]
    split
    · rename_i h
      rw [forEachEntry_eq P rest dir]
      simp [filesIn, filesAt, codeRecords, hasCodeExtension, h, recordOf]
    · rename_i h
      rw [forEachEntry_eq P rest dir]
      simp [filesIn, filesAt, codeRecords, hasCodeExtension, h]

/-! ## Lemmas on truncation and the prompt -/

theorem substring_zero (s : JSString) (n : ℕ) : substring s 0 n = s.take n := by
  simp [substring, List.take_take]

theorem truncated_eq_take (n : ℕ) (text : JSString) : truncated n text = text.take n := by
  unfold truncated
  split
  · rfl
  · rename_i h
    exact (List.take_of_length_le (not_lt.mp h)).symm

theorem appendFile_eq (P : PathModule) (localPath userMessage : JSString) (file : CodeFile) :
    appendFile P localPath userMessage file =
      userMessage ++ fencedBlock P localPath file (truncated maxFileContentLength file.content) := by
  simp only [appendFile, fencedBlock, truncated, substring_zero, List.append_assoc]

theorem foldl_appendFile (P : PathModule) (localPath : JSString) :
    ∀ (files : List CodeFile) (start : JSString),
      files.foldl (appendFile P localPath) start =
        start ++ (files.map fun f =>
          fencedBlock P localPath f (truncated maxFileContentLength f.content)).flatten
  | [], start => by simp
  | f :: rest, start => by
    rw [List.foldl_cons, foldl_appendFile P localPath rest, appendFile_eq]
    simp [List.append_assoc]

/-! ## Properties of `cosineSimilarity` -/

/-- On arrays of equal length with non-zero norms the function returns the quotient of the dot
product by the product of the norms. -/
theorem cosineSimilarity_value (vecA vecB : List ℝ) (hlen : vecA.length = vecB.length)
    (hA : euclideanNorm vecA ≠ 0) (hB : euclideanNorm vecB ≠ 0) :
    cosineSimilarity (some vecA) (some vecB) =
      Except.ok (num (dot vecA vecB / (euclideanNorm vecA * euclideanNorm vecB))) := by
  rw [cosineSimilarity_eq vecA vecB hlen,
    cosineResult_num _ _ _ (sumSquares_nonneg vecA) (sumSquares_nonneg vecB) (mul_ne_zero hA hB)]
  rfl

/-- The quotient of the dot product by the product of the norms lies between -1 and 1. -/
theorem cosine_bounds (vecA vecB : List ℝ) (hlen : vecA.length = vecB.length)
    (hA : euclideanNorm vecA ≠ 0) (hB : euclideanNorm vecB ≠ 0) :
    -1 ≤ dot vecA vecB / (euclideanNorm vecA * euclideanNorm vecB) ∧
      dot vecA vecB / (euclideanNorm vecA * euclideanNorm vecB) ≤ 1 := by
  have hpos : 0 < euclideanNorm vecA * euclideanNorm vecB :=
    lt_of_le_of_ne (mul_nonneg (Real.sqrt_nonneg _) (Real.sqrt_nonneg _))
      (Ne.symm (mul_ne_zero hA hB))
  have hbound := abs_le.mp (abs_dot_le vecA vecB hlen)
  constructor
  · rw [le_div_iff₀ hpos]
    linarith [hbound.1]
  · rw [div_le_one hpos]
    exact hbound.2

/-- Claim C4: for two arrays of equal length with non-zero norms, `cosineSimilarity` returns the
real number `dot(vecA, vecB) / (norm(vecA) * norm(vecB))`, and that number lies in the closed
interval from -1 to 1. -/
theorem cosineSimilarity_range (vecA vecB : List ℝ) (hlen : vecA.length = vecB.length)
    (hA : euclideanNorm vecA ≠ 0) (hB : euclideanNorm vecB ≠ 0) :
    ∃ x : ℝ, cosineSimilarity (some vecA) (some vecB) = Except.ok (num x) ∧
      x = dot vecA vecB / (euclideanNorm vecA * euclideanNorm vecB) ∧ -1 ≤ x ∧ x ≤ 1 := by
  refine ⟨_, cosineSimilarity_value vecA vecB hlen hA hB, rfl, ?_⟩
  exact cosine_bounds vecA vecB hlen hA hB

/-- Claim C5: for an array with at least one non-zero component, `cosineSimilarity(a, a)`
returns 1. -/
theorem cosineSimilarity_self (a : List ℝ) (h : ∃ x ∈ a, x ≠ 0) :
    cosineSimilarity (some a) (some a) = Except.ok (num 1) := by
  have hpos : 0 < sumSquares a := sumSquares_pos h
  have hsq : Real.sqrt (sumSquares a) * Real.sqrt (sumSquares a) = sumSquares a :=
    Real.mul_self_sqrt (le_of_lt hpos)
  rw [cosineSimilarity_eq a a rfl, dot_self,
    cosineResult_num _ _ _ (le_of_lt hpos) (le_of_lt hpos) (by rw [hsq]; exact ne_of_gt hpos),
    hsq, div_self (ne_of_gt hpos)]

/-- Claim C6: for two arrays of equal length, `cosineSimilarity(a, b)` and
`cosineSimilarity(b, a)` return the same value. -/
theorem cosineSimilarity_symm (a b : List ℝ) (h : a.length = b.length) :
    cosineSimilarity (some a) (some b) = cosineSimilarity (some b) (some a) := by
  rw [cosineSimilarity_eq a b h, cosineSimilarity_eq b a h.symm, dot_comm a b h]
  simp only [cosineResult, sqrt_num_of_nonneg (sumSquares_nonneg a),
    sqrt_num_of_nonneg (sumSquares_nonneg b), mul_num_comm]

/-- Claim C10, as amended: `cosineSimilarity` has no length check and never throws on two
arrays.  When `vecA` is the shorter array it returns what it returns on `vecA` and the first
`vecA.length` elements of `vecB`; when `vecA` is the longer array it returns NaN. -/
theorem cosineSimilarity_length_mismatch (vecA vecB : List ℝ) :
    (∃ v : JSNumber, cosineSimilarity (some vecA) (some vecB) = Except.ok v) ∧
    (vecA.length < vecB.length →
      cosineSimilarity (some vecA) (some vecB) =
        cosineSimilarity (some vecA) (some (vecB.take vecA.length))) ∧
    (vecB.length < vecA.length →
      cosineSimilarity (some vecA) (some vecB) = Except.ok nan) := by
  refine ⟨⟨_, rfl⟩, fun h => ?_, fun h => ?_⟩
  · simp only [cosineSimilarity, cosineLoop_take vecA vecB h]
  · simp only [cosineSimilarity, cosineResult, cosineLoop_nan vecA vecB vecA.length h,
      div_nan_left]

/-- Claim C10, counterexample: on `[1]` and `[1, 5]`, two arrays of different lengths,
`cosineSimilarity` throws nothing and returns the similarity 1. -/
theorem cosineSimilarity_mismatch_returns :
    ([1] : List ℝ).length ≠ ([1, 5] : List ℝ).length ∧
      cosineSimilarity (some [1]) (some [1, 5]) = Except.ok (num 1) := by
  refine ⟨by decide, ?_⟩
  norm_num [cosineSimilarity, cosineLoop, List.range_succ, cosineStep, initialAccumulators, index,
    cosineResult, JSNumber.sqrt, JSNumber.mul, JSNumber.add, JSNumber.div]

/-- Claim C4, witness: the arrays `[3, 4]` and `[4, 3]`. -/
theorem cosineSimilarity_range_witness :
    ∃ x : ℝ, cosineSimilarity (some [3, 4]) (some [4, 3]) = Except.ok (num x) ∧
      x = dot [3, 4] [4, 3] / (euclideanNorm [3, 4] * euclideanNorm [4, 3]) ∧ -1 ≤ x ∧ x ≤ 1 :=
  cosineSimilarity_range [3, 4] [4, 3] rfl
    (by
      rw [euclideanNorm, Real.sqrt_ne_zero']
      exact sumSquares_pos ⟨3, by simp, by norm_num⟩)
    (by
      rw [euclideanNorm, Real.sqrt_ne_zero']
      exact sumSquares_pos ⟨4, by simp, by norm_num⟩)

/-- Claim C5, witness: the file and the question both embedded as `[1, 0]` have similarity 1. -/
theorem cosineSimilarity_self_witness :
    cosineSimilarity (some [1, 0]) (some [1, 0]) = Except.ok (num 1) :=
  cosineSimilarity_self [1, 0] ⟨1, by simp, by norm_num⟩

/-- Claim C6, witness: the arrays `[1, 2]` and `[3, 4]`. -/
theorem cosineSimilarity_symm_witness :
    cosineSimilarity (some [1, 2]) (some [3, 4]) = cosineSimilarity (some [3, 4]) (some [1, 2]) :=
  cosineSimilarity_symm [1, 2] [3, 4] rfl

/-! ## Properties of ranking and selection -/

theorem rankFiles_pair (files : List CodeFile) (hs : AllScored files) (a b : CodeFile)
    (hab : a.similarity = b.similarity) (h : [a, b] <+ files) : [a, b] <+ rankFiles files := by
  classical
  have hp : TieClass (fun f => decide (f.similarity = a.similarity)) := fun u v hu hv => by
    simp only [decide_eq_true_eq] at hu hv
    rw [hu, hv]
  have h1 := h.filter (fun f => decide (f.similarity = a.similarity))
  rw [← rankFiles_filter _ hp files hs] at h1
  have h2 : [a, b].filter (fun f => decide (f.similarity = a.similarity)) = [a, b] := by
    simp [hab]
  rw [h2] at h1
  exact h1.trans (List.filter_sublist _)

theorem relevantFiles_eq (files : List CodeFile) :
    relevantFiles files = (rankFiles files).take topN := by
  simp [relevantFiles, slice]

theorem allScored_scoredFile (l : List (JSString × ℝ)) :
    AllScored (l.map fun f => scoredFile f.1 f.2) := by
  intro f hf
  obtain ⟨g, _, rfl⟩ := List.mem_map.mp hf
  exact ⟨g.2, rfl⟩

theorem allScored_threeFiles : AllScored threeFiles :=
  allScored_scoredFile [(lit "a.js", 0.9), (lit "b.js", -1), (lit "c.js", 0.5)]

theorem allScored_manyFiles : AllScored manyFiles := by
  intro f hf
  obtain ⟨i, _, rfl⟩ := List.mem_map.mp hf
  exact ⟨_, rfl⟩

/-- Claim C1: when every file has a real number as similarity, the sorted array is a
permutation of the input, its similarities are non-increasing from first to last, and files of
equal similarity keep their original relative order: any two of them, and each whole class of
files of one similarity. -/
theorem ranking_sorted_stable (files : List CodeFile) (h : AllScored files) :
    (rankFiles files).Perm files ∧
    (rankFiles files).Pairwise SimilarityGE ∧
    (∀ a b : CodeFile, a.similarity = b.similarity → [a, b] <+ files →
      [a, b] <+ rankFiles files) ∧
    (∀ p : CodeFile → Bool, TieClass p → (rankFiles files).filter p = files.filter p) :=
  ⟨rankFiles_perm files, rankFiles_sorted files h,
    fun a b hab hsub => rankFiles_pair files h a b hab hsub,
    fun p hp => rankFiles_filter p hp files h⟩

/-- Claim C1, witness: the similarities 0.9, -1, 0.5 are ordered 0.9, 0.5, -1. -/
theorem ranking_sorted_stable_witness :
    rankFiles threeFiles =
      [scoredFile (lit "a.js") 0.9, scoredFile (lit "c.js") 0.5, scoredFile (lit "b.js") (-1)] ∧
    AllScored threeFiles ∧
    (rankFiles threeFiles).Perm threeFiles ∧
    (rankFiles threeFiles).Pairwise SimilarityGE :=
  ⟨by norm_num [rankFiles, threeFiles, arraySort, sortInsert, sortCompare, compareSimilarity,
      toNumber, scoredFile, JSNumber.sub, JSNumber.neg, JSNumber.add, IsPositive],
    allScored_threeFiles,
    (ranking_sorted_stable threeFiles allScored_threeFiles).1,
    (ranking_sorted_stable threeFiles allScored_threeFiles).2.1⟩

/-- Claim C2: when every file has a real number as similarity, the slice selects
`min(100, n)` of the `n` files; the selected and the other files together are the input files;
every selected file has a similarity at least that of every other file; and of each class of
files of one similarity, the selected ones are the first in the original order. -/
theorem topN_selection (files : List CodeFile) (h : AllScored files) :
    (relevantFiles files).length = min 100 files.length ∧
    (relevantFiles files ++ unselectedFiles files).Perm files ∧
    (∀ a ∈ relevantFiles files, ∀ b ∈ unselectedFiles files, SimilarityGE a b) ∧
    (∀ p : CodeFile → Bool, TieClass p →
      (relevantFiles files).filter p <+: files.filter p) := by
  rw [relevantFiles_eq]
  unfold unselectedFiles
  refine ⟨?_, ?_, ?_, ?_⟩
  · rw [List.length_take, (rankFiles_perm files).length_eq]
    rfl
  · rw [List.take_append_drop]
    exact rankFiles_perm files
  · have hsorted := rankFiles_sorted files h
    rw [← List.take_append_drop topN (rankFiles files), List.pairwise_append] at hsorted
    exact hsorted.2.2
  · intro p hp
    rw [← rankFiles_filter p hp files h]
    exact List.IsPrefix.filter p (List.take_prefix topN (rankFiles files))

/-- Claim C2, witness: of 150 scored files exactly 100 are selected, each with a similarity at
least that of each of the 50 others. -/
theorem topN_selection_witness :
    AllScored manyFiles ∧ manyFiles.length = 150 ∧
    (relevantFiles manyFiles).length = 100 ∧
    (relevantFiles manyFiles ++ unselectedFiles manyFiles).Perm manyFiles ∧
    (∀ a ∈ relevantFiles manyFiles, ∀ b ∈ unselectedFiles manyFiles, SimilarityGE a b) :=
  ⟨allScored_manyFiles, by simp [manyFiles],
    (topN_selection manyFiles allScored_manyFiles).1.trans (by simp [manyFiles]),
    (topN_selection manyFiles allScored_manyFiles).2.1,
    (topN_selection manyFiles allScored_manyFiles).2.2.1⟩

/-! ## Properties of the scoring step -/

theorem forall₂_right_mem {α β : Type} {R : α → β → Prop} :
    ∀ {l₁ : List α} {l₂ : List β}, List.Forall₂ R l₁ l₂ → ∀ b ∈ l₂, ∃ a ∈ l₁, R a b
  | _, _, List.Forall₂.nil, _, hb => by cases hb
  | _, _, List.Forall₂.cons hab hrest, b, hb => by
    rcases List.mem_cons.mp hb with h | h
    · exact ⟨_, List.mem_cons_self _ _, h ▸ hab⟩
    · obtain ⟨a, ha, hr⟩ := forall₂_right_mem hrest b h
      exact ⟨a, List.mem_cons_of_mem _ ha, hr⟩

theorem scoredAs_hasSimilarity {file scored : CodeFile} (h : ScoredAs file scored) :
    ∃ x : ℝ, HasSimilarity scored x := by
  rcases h with ⟨_, rfl⟩ | ⟨_, x, rfl⟩
  · exact ⟨-1, rfl⟩
  · exact ⟨x, rfl⟩

theorem scoredAs_unscored {file scored : CodeFile} (h : ScoredAs file scored)
    (hnone : scored.embedding = none) : HasSimilarity scored (-1) := by
  rcases h with ⟨_, rfl⟩ | ⟨hsome, x, rfl⟩
  · rfl
  · exact absurd hnone hsome

/-- Claim C3, as amended: the scoring step gives every file without an embedding the similarity
-1, and every file with an embedding the value `cosineSimilarity` returns for it.  Whatever
real numbers the files with an embedding are scored with, in the sorted array every file that
stands after a file without an embedding has a similarity of -1 or lower: a file without an
embedding stands before a file with an embedding only when that file is scored -1 or lower. -/
theorem unscored_rank_last (files scored : List CodeFile)
    (h : List.Forall₂ ScoredAs files scored) :
    (∀ (q : Option (List ℝ)) (f : CodeFile), f.embedding = none →
      assignSimilarity q f = Except.ok { f with similarity := some (num (-1)) }) ∧
    (∀ (q : Option (List ℝ)) (f : CodeFile) (e : List ℝ) (v : JSNumber),
      f.embedding = some e → cosineSimilarity q (some e) = Except.ok v →
      assignSimilarity q f = Except.ok { f with similarity := some v }) ∧
    (∀ g ∈ scored, g.embedding = none → HasSimilarity g (-1)) ∧
    (rankFiles scored).Perm scored ∧
    (rankFiles scored).Pairwise SimilarityGE ∧
    (rankFiles scored).Pairwise fun a b =>
      a.embedding = none → ∃ y : ℝ, HasSimilarity b y ∧ y ≤ -1 := by
  have hall : AllScored scored := fun g hg => by
    obtain ⟨f, _, hfg⟩ := forall₂_right_mem h g hg
    exact scoredAs_hasSimilarity hfg
  have hunscored : ∀ g ∈ scored, g.embedding = none → HasSimilarity g (-1) := fun g hg hnone => by
    obtain ⟨f, _, hfg⟩ := forall₂_right_mem h g hg
    exact scoredAs_unscored hfg hnone
  have hsorted := rankFiles_sorted scored hall
  refine ⟨fun q f hf => ?_, fun q f e v hf hv => ?_, hunscored, rankFiles_perm scored, hsorted, ?_⟩
  · simp [assignSimilarity, hf]
  · simp [assignSimilarity, hf, hv]
  · refine hsorted.imp_of_mem ?_
    intro a b ha _ hge hanone
    have hsa := hunscored a ((rankFiles_perm scored).mem_iff.mp ha) hanone
    obtain ⟨x, y, hx, hy, hle⟩ := hge
    have hx1 := hasSimilarity_unique hsa hx
    exact ⟨y, hy, by linarith⟩

theorem validEmbeddings_tiedFiles : ValidEmbeddings [1] tiedFiles := by
  have hnorm : ∀ x : ℝ, x ≠ 0 → euclideanNorm [x] ≠ 0 := fun x hx => by
    rw [euclideanNorm, Real.sqrt_ne_zero']
    exact sumSquares_pos ⟨x, by simp, hx⟩
  refine ⟨hnorm 1 one_ne_zero, fun f hf e he => ?_⟩
  simp only [tiedFiles, List.mem_cons, List.mem_singleton, List.not_mem_nil, or_false] at hf
  rcases hf with rfl | rfl
  · cases he
  · injection he with he
    subst he
    exact ⟨rfl, hnorm (-1) (by norm_num)⟩

/-- Claim C3, counterexample: the question embedding `[1]` and the files `x.js`, without an
embedding, and `y.js`, with the embedding `[-1]`, meet the conditions of the claim; both files
get similarity -1 (the quotient `-1 / (1 * 1)`, exact in doubles too) and the sorted array keeps
`x.js`, which has no embedding, before `y.js`, which has one. -/
theorem unscored_before_scored :
    ValidEmbeddings [1] tiedFiles ∧
    scoreAndRank (some [1]) tiedFiles = Except.ok
      [{ path := lit "x.js", content := [], embedding := none, similarity := some (num (-1)) },
       { path := lit "y.js", content := [], embedding := some [-1],
         similarity := some (num (-1)) }] := by
  refine ⟨validEmbeddings_tiedFiles, ?_⟩
  norm_num [scoreAndRank, scoreFiles, tiedFiles, assignSimilarity, cosineSimilarity, cosineLoop,
    List.range_succ, cosineStep, initialAccumulators, index, cosineResult, JSNumber.sqrt,
    JSNumber.mul, JSNumber.add, JSNumber.div, rankFiles, arraySort, sortInsert, sortCompare,
    compareSimilarity, toNumber, JSNumber.sub, JSNumber.neg, IsPositive]

theorem scoredAs_mixedFiles : List.Forall₂ ScoredAs mixedFiles mixedScored :=
  List.Forall₂.cons (Or.inl ⟨rfl, rfl⟩)
    (List.Forall₂.cons (Or.inr ⟨by simp, 1, rfl⟩) List.Forall₂.nil)

/-- Claim C3, witness: with the question embedding `[1, 0]`, the file `x.js` without an
embedding is scored -1 and the file `main.go` with the embedding `[1, 0]` is scored 1; the sort
puts `main.go` first and `x.js` last. -/
theorem unscored_rank_last_witness :
    scoreFiles (some [1, 0]) mixedFiles = Except.ok mixedScored ∧
    List.Forall₂ ScoredAs mixedFiles mixedScored ∧
    rankFiles mixedScored =
      [{ path := lit "main.go", content := [], embedding := some [1, 0],
         similarity := some (num 1) },
       { path := lit "x.js", content := [], similarity := some (num (-1)) }] ∧
    (∀ g ∈ mixedScored, g.embedding = none → HasSimilarity g (-1)) ∧
    (rankFiles mixedScored).Pairwise fun a b =>
      a.embedding = none → ∃ y : ℝ, HasSimilarity b y ∧ y ≤ -1 :=
  ⟨by norm_num [scoreFiles, mixedFiles, mixedScored, assignSimilarity, cosineSimilarity,
      cosineLoop, List.range_succ, cosineStep, initialAccumulators, index, cosineResult,
      JSNumber.sqrt, JSNumber.mul, JSNumber.add, JSNumber.div],
    scoredAs_mixedFiles,
    by norm_num [rankFiles, mixedScored, arraySort, sortInsert, sortCompare, compareSimilarity,
      toNumber, JSNumber.sub, JSNumber.neg, JSNumber.add, IsPositive],
    (unscored_rank_last mixedFiles mixedScored scoredAs_mixedFiles).2.2.1,
    (unscored_rank_last mixedFiles mixedScored scoredAs_mixedFiles).2.2.2.2.2⟩

/-! ## Properties of the prompt, of file collection and of the embedding requests -/

/-- Claim C7: the prompt is the system message, a blank and then, for each selected file in
order, the label line and, between two code fences, the excerpt of the file, followed by the
closing instruction and the question.  The excerpt is the first 5000 code units of the content
when the content is longer than 5000, and the whole content otherwise; it is never longer than
5000 and is always an initial part of the content. -/
theorem prompt_excerpts (P : PathModule) (localPath : JSString) (relevant : List CodeFile)
    (question : JSString) :
    promptContent P localPath relevant question =
      systemMessage ++ lit " " ++
        ((relevant.map fun f => fencedBlock P localPath f (truncated 5000 f.content)).flatten ++
          (lit "Respond to the follow about the code above:\n\n" ++ question)) ∧
    ∀ content : JSString,
      (content.length > 5000 →
        truncated 5000 content = content.take 5000 ∧ (truncated 5000 content).length = 5000) ∧
      (content.length ≤ 5000 → truncated 5000 content = content) ∧
      (truncated 5000 content).length ≤ 5000 ∧
      truncated 5000 content <+: content := by
  refine ⟨?_, fun content => ⟨fun h => ?_, fun h => ?_, ?_, ?_⟩⟩
  · rw [promptContent, userMessage, foldl_appendFile]
    rfl
  · rw [truncated_eq_take, List.length_take]
    exact ⟨rfl, min_eq_left (le_of_lt h)⟩
  · rw [truncated_eq_take]
    exact List.take_of_length_le h
  · rw [truncated_eq_take, List.length_take]
    exact min_le_left _ _
  · rw [truncated_eq_take]
    exact List.take_prefix _ _

/-- Claim C8: on a directory, `readCodeFiles` returns exactly the records, with path and full
content, of the regular files at any depth below it whose extension is one of the ten of
`codeExtensions`, one record for each such file, and no other record. -/
theorem readCodeFiles_collects (P : PathModule) (dir : JSString) (list : FSEntries) :
    ∃ records : List CodeFile,
      readCodeFiles P dir (FSNode.dir list) = Except.ok records ∧
      records =
        ((filesIn P dir list).filter fun f => decide (P.extname f.1 ∈ codeExtensions)).map
          (fun f => { path := f.1, content := f.2 }) ∧
      records.length =
        (filesIn P dir list).countP (fun f => decide (P.extname f.1 ∈ codeExtensions)) ∧
      ∀ f : CodeFile, f ∈ records ↔
        ((f.path, f.content) ∈ filesIn P dir list ∧ P.extname f.path ∈ codeExtensions ∧
          f.embedding = none ∧ f.similarity = none) := by
  refine ⟨codeRecords P (filesIn P dir list), ?_, rfl, ?_, fun f => ?_⟩
  · rw [readCodeFiles, forEachEntry_eq]
    rfl
  · simp only [codeRecords, hasCodeExtension, List.length_map, List.countP_eq_length_filter]
  · simp only [codeRecords, hasCodeExtension, List.mem_map, List.mem_filter, decide_eq_true_eq]
    constructor
    · rintro ⟨g, ⟨hg, hext⟩, rfl⟩
      exact ⟨hg, hext, rfl, rfl⟩
    · rintro ⟨hf, hext, hemb, hsim⟩
      refine ⟨(f.path, f.content), ⟨hf, hext⟩, ?_⟩
      cases f
      simp only at hemb hsim
      simp [recordOf, hemb, hsim]

/-- Claim C8, witness: the tree with `a.py`, `b.txt` and `sub/c.js` yields the records of `a.py`
and `sub/c.js`, and none for `b.txt`. -/
theorem readCodeFiles_collects_witness :
    readCodeFiles posixPath (lit "/repo") exampleTree =
      Except.ok
        [{ path := lit "/repo/a.py", content := lit "print(1)" },
         { path := lit "/repo/sub/c.js", content := lit "let c = 1;" }] :=
  (readCodeFiles_collects posixPath (lit "/repo") _).elim fun _ h => h.1.trans (h.2.1 ▸ rfl)

/-- Claim C9, on the code: the request for a file carries the content truncated to 8000 code
units, but the request for the question carries the question as it is; the question of 8001
code units is sent whole, where its truncation has 8000. -/
theorem embedding_inputs :
    (∀ (api : EmbeddingRequest → Option (List ℝ)) (codeFiles : List CodeFile),
      generateEmbeddingsForCodeFiles api codeFiles =
        codeFiles.map fun f => { f with embedding := api (fileEmbeddingRequest f) }) ∧
    (∀ file : CodeFile, (fileEmbeddingRequest file).input = truncated 8000 file.content) ∧
    (∀ question : JSString, (questionEmbeddingRequest question).input = question) ∧
    longQuestion.length = 8001 ∧
    (questionEmbeddingRequest longQuestion).input = longQuestion ∧
    (truncated 8000 longQuestion).length = 8000 := by
  refine ⟨fun _ _ => rfl, fun file => ?_, fun _ => rfl, ?_, rfl, ?_⟩
  · simp only [fileEmbeddingRequest, embeddingRequest, embeddingContent, truncated, maxLength,
      substring_zero]
  · exact List.length_replicate _ _
  · rw [truncated_eq_take, List.length_take, longQuestion, List.length_replicate]
    rfl

end RepoChat
